/-
  Verification of the rule-builder condition-tree model
  (Pascal-Delange/rust-and-htmx-rule-builder).

  Shallow embedding of src/models.rs, src/handlers.rs (operator resolvers)
  and src/auth.rs (session expiry) into Lean 4.  Rust `Uuid` identifiers are
  modelled as `Nat` (their value never influences control flow), `String`
  payloads stay `String`, `Vec` becomes `List`, `usize` becomes `Nat`, and
  `SystemTime` becomes a `Nat` timestamp passed explicitly.
-/
import Mathlib

namespace RuleBuilder

/-- `Field` enum from src/models.rs. -/
inductive Field where
  | TransactionAmount
  | TransactionCurrency
  | UserCountry
  | UserAge
  | IpAddress
  | DeviceFingerprint
  | TransactionCount24h
  | AccountAge
  deriving DecidableEq, Repr

/-- `Field::all()` from src/models.rs. -/
def Field.all : List Field :=
  [ .TransactionAmount, .TransactionCurrency, .UserCountry, .UserAge,
    .IpAddress, .DeviceFingerprint, .TransactionCount24h, .AccountAge ]

/-- `Field::as_str` from src/models.rs (the serde snake_case wire token). -/
def Field.as_str : Field → String
  | .TransactionAmount => "transaction_amount"
  | .TransactionCurrency => "transaction_currency"
  | .UserCountry => "user_country"
  | .UserAge => "user_age"
  | .IpAddress => "ip_address"
  | .DeviceFingerprint => "device_fingerprint"
  | .TransactionCount24h => "transaction_count_24h"
  | .AccountAge => "account_age"

/-- serde deserialization of a `Field` from its wire token, as invoked by
`serde_json::from_str::<Field>(&format!("\"{}\"", s))` in src/handlers.rs.
Tokens are matched verbatim (JSON escape sequences inside the token are not
modelled). -/
def Field.from_str (s : String) : Option Field :=
  if s = "transaction_amount" then some .TransactionAmount
  else if s = "transaction_currency" then some .TransactionCurrency
  else if s = "user_country" then some .UserCountry
  else if s = "user_age" then some .UserAge
  else if s = "ip_address" then some .IpAddress
  else if s = "device_fingerprint" then some .DeviceFingerprint
  else if s = "transaction_count_24h" then some .TransactionCount24h
  else if s = "account_age" then some .AccountAge
  else none

/-- `Operator` enum from src/models.rs. -/
inductive Operator where
  | Equals
  | NotEquals
  | GreaterThan
  | LessThan
  | GreaterThanOrEqual
  | LessThanOrEqual
  | Contains
  | In
  deriving DecidableEq, Repr

/-- `Operator::all()` from src/models.rs. -/
def Operator.all : List Operator :=
  [ .Equals, .NotEquals, .GreaterThan, .LessThan,
    .GreaterThanOrEqual, .LessThanOrEqual, .Contains, .In ]

/-- `LogicalOperator` enum from src/models.rs. -/
inductive LogicalOperator where
  | And
  | Or
  deriving DecidableEq, Repr

/-- `Operand` enum from src/models.rs: a field reference or a literal value. -/
inductive Operand where
  | Field (field : Field)
  | Value (value : String)
  deriving DecidableEq, Repr

/-- `ConditionNode` from src/models.rs: a leaf comparison or a group of
children combined by a logical operator.  `Uuid` ids are modelled as `Nat`. -/
inductive ConditionNode where
  | Leaf (id : Nat) (left : Operand) (operator : Operator) (right : Operand)
  | Group (id : Nat) (operator : LogicalOperator)
      (children : List ConditionNode)
  deriving Repr

namespace ConditionNode

/-- `ConditionNode::is_leaf` from src/models.rs. -/
def is_leaf : ConditionNode → Bool
  | .Leaf .. => true
  | .Group .. => false

/-- `ConditionNode::is_group` from src/models.rs. -/
def is_group : ConditionNode → Bool
  | .Leaf .. => false
  | .Group .. => true

/-- `ConditionNode::get_at_path` from src/models.rs: empty path yields the
node itself; at a `Group`, index into `children` with the head and recurse on
the tail (`children.get` returning `None` when out of range); at a `Leaf` a
non-empty path yields `None`. -/
def get_at_path (n : ConditionNode) (path : List Nat) : Option ConditionNode :=
  match path, n with
  | [], n => some n
  | _ :: _, .Leaf .. => none
  | i :: rest, .Group _ _ children =>
      match children[i]? with
      | some child => get_at_path child rest
      | none => none

/-- `ConditionNode::add_child_at_path` from src/models.rs, functionally:
the Rust navigates with `get_at_path_mut` and pushes `child` onto the
resolved group's `children`.  Here the same traversal is performed and the
updated tree is rebuilt along the path (`children.set` writes the updated
child back, mirroring the in-place mutation); the `Bool` is the Rust return
value and the second component is the tree after the call. -/
def add_child_at_path (n : ConditionNode) (path : List Nat)
    (child : ConditionNode) : Bool × ConditionNode :=
  match path, n with
  | [], .Group id op children => (true, .Group id op (children ++ [child]))
  | [], .Leaf id l o r => (false, .Leaf id l o r)
  | _ :: _, .Leaf id l o r => (false, .Leaf id l o r)
  | i :: rest, .Group id op children =>
      match children[i]? with
      | some c =>
          let res := add_child_at_path c rest child
          (res.1, .Group id op (children.set i res.2))
      | none => (false, .Group id op children)

/-- Helper for `delete_at_path`: remove the child at index `idx` of the group
reached from `n` by `parent`, mirroring the Rust
`get_at_path_mut(parent_path)` + bounds check + `children.remove(child_index)`.
The `Bool` is the Rust return value; the second component is the tree after
the call. -/
def remove_child_at (n : ConditionNode) (parent : List Nat) (idx : Nat) :
    Bool × ConditionNode :=
  match parent, n with
  | [], .Group id op children =>
      if idx < children.length then (true, .Group id op (children.eraseIdx idx))
      else (false, .Group id op children)
  | [], .Leaf id l o r => (false, .Leaf id l o r)
  | _ :: _, .Leaf id l o r => (false, .Leaf id l o r)
  | i :: rest, .Group id op children =>
      match children[i]? with
      | some c =>
          let res := remove_child_at c rest idx
          (res.1, .Group id op (children.set i res.2))
      | none => (false, .Group id op children)

/-- `ConditionNode::delete_at_path` from src/models.rs: the empty path fails
(the root is never deletable); otherwise split the path into
`parent_path = path[..len-1]` and `child_index = path[len-1]` and remove that
child of the resolved parent group when in bounds. -/
def delete_at_path (n : ConditionNode) (path : List Nat) :
    Bool × ConditionNode :=
  match path with
  | [] => (false, n)
  | a :: as' => remove_child_at n (a :: as').dropLast ((a :: as').getLastD 0)

end ConditionNode

/-- `Rule` struct from src/models.rs (the `Uuid` id modelled as `Nat`). -/
structure Rule where
  id : Nat
  name : String
  description : String
  root : ConditionNode
  action : String
  deriving Repr

mutual

/-- `Rule::validate_node` from src/models.rs, functionally: the Rust pushes
error strings onto a mutable `Vec` in traversal order; here the list of
errors contributed by a node is returned.  A `Leaf` contributes one error per
side that is an empty literal `Value` (left checked before right); a `Group`
contributes one error when childless, then the children's errors in order. -/
def validate_node : ConditionNode → List String
  | .Leaf _ left _ right =>
      (match left with
       | .Value v => if v.isEmpty then ["Condition value cannot be empty"] else []
       | .Field _ => []) ++
      (match right with
       | .Value v => if v.isEmpty then ["Condition value cannot be empty"] else []
       | .Field _ => [])
  | .Group _ _ children =>
      (if children.isEmpty then ["Group must have at least one condition"] else []) ++
      validate_node_list children

/-- Traversal of a `Group`'s children by `Rule::validate_node` (the Rust
`for child in children` loop). -/
def validate_node_list : List ConditionNode → List String
  | [] => []
  | c :: cs => validate_node c ++ validate_node_list cs

end

/-- The full error list accumulated by `Rule::validate` from src/models.rs:
the empty-name error first, then the tree errors. -/
def Rule.validate_errors (r : Rule) : List String :=
  (if r.name.isEmpty then ["Rule name cannot be empty"] else []) ++
  validate_node r.root

/-- `Rule::validate` from src/models.rs: `Ok(())` when no error accumulated,
otherwise `Err` with the complete error list. -/
def Rule.validate (r : Rule) : Except (List String) Unit :=
  let errors := r.validate_errors
  if errors.isEmpty then .ok () else .error errors

/-! ### Path codec (src/models.rs `parse_path` / `path_to_string`)

The codec works on the character sequence of a path token.  Rust's
`usize::to_string` is modelled by `toDecimal` (standard decimal digits) and
`str::parse::<usize>` by `parseUsize` (optional leading `+`, then one or more
decimal digits; `usize` overflow is not modelled since indices are `Nat`). -/

/-- The decimal digit character for `d < 10` (ASCII `'0' + d`). -/
def decChar (d : Nat) : Char := Char.ofNat (48 + d)

/-- Decimal rendering of a natural number, as produced by Rust's
`usize::to_string`. -/
def toDecimal (n : Nat) : List Char :=
  if n < 10 then [decChar n]
  else toDecimal (n / 10) ++ [decChar (n % 10)]
decreasing_by exact Nat.div_lt_self (by omega) (by omega)

/-- The numeric value of a decimal digit character, `none` otherwise. -/
def digitVal (c : Char) : Option Nat :=
  if ('0' ≤ c ∧ c ≤ '9') then some (c.toNat - 48) else none

/-- Accumulating decimal parser over digit characters. -/
def parseDigitsAux : List Char → Nat → Option Nat
  | [], acc => some acc
  | c :: cs, acc =>
      match digitVal c with
      | some d => parseDigitsAux cs (10 * acc + d)
      | none => none

/-- Parse a non-empty all-digit character sequence. -/
def parseDigits (l : List Char) : Option Nat :=
  if l = [] then none else parseDigitsAux l 0

/-- Rust's `str::parse::<usize>`: an optional leading `+` sign followed by at
least one decimal digit. -/
def parseUsize (l : List Char) : Option Nat :=
  match l with
  | [] => none
  | c :: cs => if c = '+' then parseDigits cs else parseDigits (c :: cs)

/-- Rust's `str::split('-')` on a character sequence: the list of maximal
dash-free segments (always non-empty; adjacent dashes yield empty segments,
and the empty input yields one empty segment). -/
def splitOnDash : List Char → List (List Char)
  | [] => [[]]
  | c :: cs =>
      if c = '-' then [] :: splitOnDash cs
      else
        match splitOnDash cs with
        | [] => [[c]]
        | seg :: segs => (c :: seg) :: segs

/-- `parse_path` from src/models.rs on characters: `"0"` maps to the empty
index list; otherwise split on `-`, skip the first segment (the root marker)
and keep every remaining segment that parses as a `usize`, silently dropping
the rest. -/
def parse_path_chars (s : List Char) : List Nat :=
  if s = ['0'] then []
  else ((splitOnDash s).drop 1).filterMap parseUsize

/-- `path_to_string` from src/models.rs on characters: `"0"` for the empty
list, otherwise `'0'` followed by `'-'`-prefixed decimal renderings of the
indices. -/
def path_to_chars (indices : List Nat) : List Char :=
  if indices = [] then ['0']
  else '0' :: (indices.map (fun idx => '-' :: toDecimal idx)).flatten

/-- `parse_path` from src/models.rs. -/
def parse_path (path : String) : List Nat := parse_path_chars path.data

/-- `path_to_string` from src/models.rs. -/
def path_to_string (indices : List Nat) : String := ⟨path_to_chars indices⟩

/-! ### Operator-applicability resolvers (src/handlers.rs) -/

/-- `get_operators_for_field` from src/handlers.rs, reduced to its decision
content (the HTML rendering around it is glue): decode the field token; the
four numeric fields get the six comparison operators, the four string fields
get equality/contains/in, and a token that fails to decode falls back to
`Operator::all()`. -/
def get_operators_for_field (field_str : String) : List Operator :=
  match Field.from_str field_str with
  | some field =>
      match field with
      | .TransactionAmount | .UserAge | .TransactionCount24h | .AccountAge =>
          [ .Equals, .NotEquals, .GreaterThan, .LessThan,
            .GreaterThanOrEqual, .LessThanOrEqual ]
      | .TransactionCurrency | .UserCountry | .IpAddress | .DeviceFingerprint =>
          [ .Equals, .NotEquals, .Contains, .In ]
  | none => Operator.all

/-- `get_operators_and_right_hint` from src/handlers.rs, reduced to its
operator-list decision: when `left_type == "field"` and the field token is
non-empty, decode it and apply the same per-field table (unknown token falls
back to `Operator::all()`); otherwise `Operator::all()`. -/
def get_operators_and_right_hint (left_type left_field_str : String) :
    List Operator :=
  if left_type = "field" ∧ ¬left_field_str.isEmpty then
    match Field.from_str left_field_str with
    | some field =>
        match field with
        | .TransactionAmount | .UserAge | .TransactionCount24h | .AccountAge =>
            [ .Equals, .NotEquals, .GreaterThan, .LessThan,
              .GreaterThanOrEqual, .LessThanOrEqual ]
        | .TransactionCurrency | .UserCountry | .IpAddress | .DeviceFingerprint =>
            [ .Equals, .NotEquals, .Contains, .In ]
    | none => Operator.all
  else Operator.all

/-- Decimal digit test on characters. -/
def isDigitChar (c : Char) : Bool := decide ('0' ≤ c) && decide (c ≤ '9')

/-- Case-insensitive comparison of a character sequence against a keyword. -/
def lowerIs (l : List Char) (kw : List Char) : Bool :=
  l.map Char.toLower = kw

/-- The exponent-and-end part of Rust's float grammar:
`Exp ::= ('e' | 'E') Sign? Count`, and nothing may follow it.  The empty
remainder (no exponent at all) is accepted. -/
def f64ExpEnd (l : List Char) : Bool :=
  match l with
  | [] => true
  | e :: rest =>
      if e = 'e' ∨ e = 'E' then
        let rest := match rest with
                    | s :: r => if s = '+' ∨ s = '-' then r else s :: r
                    | [] => []
        !rest.isEmpty && rest.all isDigitChar
      else false

/-- The `Number` alternative of Rust's float grammar:
`Number ::= Count '.'? Count? Exp? | '.' Count Exp?` with `Count ::= Digit+`. -/
def f64Number (l : List Char) : Bool :=
  let d1 := l.takeWhile isDigitChar
  let r1 := l.dropWhile isDigitChar
  if d1.isEmpty then
    match r1 with
    | '.' :: r2 =>
        let d2 := r2.takeWhile isDigitChar
        !d2.isEmpty && f64ExpEnd (r2.dropWhile isDigitChar)
    | _ => false
  else
    match r1 with
    | '.' :: r2 => f64ExpEnd (r2.dropWhile isDigitChar)
    | _ => f64ExpEnd r1

/-- Rust's `str::parse::<f64>().is_ok()`, i.e. the documented `from_str`
grammar `Float ::= Sign? ('inf' | 'infinity' | 'nan' | Number)` with the
keywords case-insensitive. -/
def is_f64_chars (l : List Char) : Bool :=
  let body := match l with
              | c :: r => if c = '+' ∨ c = '-' then r else c :: r
              | [] => []
  lowerIs body ['i','n','f'] || lowerIs body ['i','n','f','i','n','i','t','y'] ||
  lowerIs body ['n','a','n'] || f64Number body

/-- `get_operators_for_value` from src/handlers.rs, reduced to its decision
content: the literal is numeric when non-empty and parsing as `f64`; numeric
literals get the six comparison operators, others equality/contains/in. -/
def get_operators_for_value (left_value : String) : List Operator :=
  let is_numeric := !left_value.isEmpty && is_f64_chars left_value.data
  if is_numeric then
    [ .Equals, .NotEquals, .GreaterThan, .LessThan,
      .GreaterThanOrEqual, .LessThanOrEqual ]
  else
    [ .Equals, .NotEquals, .Contains, .In ]

/-! ### Sessions (src/auth.rs) -/

/-- `SESSION_DURATION` from src/auth.rs (10 minutes), in seconds. -/
def SESSION_DURATION : Nat := 10 * 60

/-- `Session` struct from src/auth.rs; `SystemTime` instants are modelled as
`Nat` timestamps (seconds). -/
structure Session where
  user_id : String
  username : String
  created_at : Nat
  expires_at : Nat
  deriving Repr, DecidableEq

/-- `Session::new` from src/auth.rs, with the current time `now` passed
explicitly and the random `Uuid` user id passed as `uid`. -/
def Session.new (username : String) (uid : String) (now : Nat) : Session :=
  { user_id := uid, username := username,
    created_at := now, expires_at := now + SESSION_DURATION }

/-- `Session::is_expired` from src/auth.rs: strictly past the expiry time. -/
def Session.is_expired (s : Session) (now : Nat) : Bool :=
  decide (now > s.expires_at)

/-- The `HashMap<String, Session>` of `SessionStore`, modelled as an
association list. -/
def SessionMap := List (String × Session)

/-- `SessionStore::get_session` from src/auth.rs: look the id up; an expired
session is removed and `None` returned; otherwise the session is returned
(cloned).  Returns the lookup result together with the store after the call. -/
def get_session (store : SessionMap) (session_id : String) (now : Nat) :
    Option Session × SessionMap :=
  match List.lookup session_id store with
  | some session =>
      if session.is_expired now then
        (none, store.filter (fun kv => !(kv.1 = session_id : Bool)))
      else (some session, store)
  | none => (none, store)

/-! ### Spec-side counting functions for the validator claim

These follow the spec's wording ("one error per childless Group at any depth",
"one error per Leaf operand side that is a literal Value with an empty
string") and are compared against the code-side `validate_node`. -/

mutual

/-- Number of childless `Group` nodes in a tree, the root included. -/
def countEmptyGroups : ConditionNode → Nat
  | .Leaf .. => 0
  | .Group _ _ children =>
      (if children.isEmpty then 1 else 0) + countEmptyGroupsList children

/-- Sum of `countEmptyGroups` over a list of nodes. -/
def countEmptyGroupsList : List ConditionNode → Nat
  | [] => 0
  | c :: cs => countEmptyGroups c + countEmptyGroupsList cs

end

/-- Number of operand sides of one `Leaf` that are empty literal values. -/
def countEmptyValueSides (left right : Operand) : Nat :=
  (match left with
   | .Value v => if v.isEmpty then 1 else 0
   | .Field _ => 0) +
  (match right with
   | .Value v => if v.isEmpty then 1 else 0
   | .Field _ => 0)

mutual

/-- Number of empty literal-value operand sides over all leaves of a tree. -/
def countEmptyValues : ConditionNode → Nat
  | .Leaf _ left _ right => countEmptyValueSides left right
  | .Group _ _ children => countEmptyValuesList children

/-- Sum of `countEmptyValues` over a list of nodes. -/
def countEmptyValuesList : List ConditionNode → Nat
  | [] => 0
  | c :: cs => countEmptyValues c + countEmptyValuesList cs

end

/-- The rule of the validator-completeness scenario: empty name, a root group
holding one childless group and one leaf whose right operand is an empty
literal. -/
def exampleRule : Rule :=
  { id := 0, name := "", description := "example",
    root := .Group 1 .And
      [ .Group 2 .And [],
        .Leaf 3 (.Field .TransactionAmount) .GreaterThan (.Value "") ],
    action := "flag_for_review" }

/-! ## Theorems -/

/-- Writing back the element already stored at an index is a no-op. -/
theorem list_set_of_getElem? {α : Type} (l : List α) (i : Nat) (x : α)
    (h : l[i]? = some x) : l.set i x = l := by
  induction l generalizing i with
  | nil => simp at h
  | cons a t ih =>
    cases i with
    | zero => simp at h; simp [List.set, h]
    | succ j => simp at h; simp [List.set, ih j h]

namespace ConditionNode

/-- `add_child_at_path` succeeds exactly when the path resolves to a group. -/
theorem add_fst_iff (n : ConditionNode) (p : List Nat) (c : ConditionNode) :
    (n.add_child_at_path p c).1 = true ↔
      ∃ id op ch, n.get_at_path p = some (.Group id op ch) := by
  induction p generalizing n with
  | nil =>
    cases n with
    | Leaf id l o r => simp [add_child_at_path, get_at_path]
    | Group id op ch => simp [add_child_at_path, get_at_path]
  | cons i rest ih =>
    cases n with
    | Leaf id l o r => simp [add_child_at_path, get_at_path]
    | Group id op ch =>
      cases h : ch[i]? with
      | none => simp [add_child_at_path, get_at_path, h]
      | some c₂ => simp [add_child_at_path, get_at_path, h, ih c₂]

/-- On success, `add_child_at_path` appends the new node as the last child of
the group the path resolves to, leaving the earlier children in place. -/
theorem add_snd_get (n : ConditionNode) (p : List Nat) (c : ConditionNode)
    (id : Nat) (op : LogicalOperator) (ch : List ConditionNode)
    (h : n.get_at_path p = some (.Group id op ch)) :
    (n.add_child_at_path p c).2.get_at_path p =
      some (.Group id op (ch ++ [c])) := by
  induction p generalizing n with
  | nil =>
    cases n with
    | Leaf id₂ l o r => simp [get_at_path] at h
    | Group id₂ op₂ ch₂ =>
      simp [get_at_path] at h
      obtain ⟨h1, h2, h3⟩ := h
      subst h1; subst h2; subst h3
      simp [add_child_at_path, get_at_path]
  | cons i rest ih =>
    cases n with
    | Leaf id₂ l o r => simp [get_at_path] at h
    | Group id₂ op₂ ch₂ =>
      cases hc : ch₂[i]? with
      | none => simp [get_at_path, hc] at h
      | some c₂ =>
        simp [get_at_path, hc] at h
        have hi : i < ch₂.length := by
          have := List.getElem?_eq_some.mp hc
          exact this.1
        simp [add_child_at_path, hc, get_at_path,
          List.getElem?_set_self (by simpa using hi)]
        exact ih c₂ h

/-- A failed `add_child_at_path` leaves the tree unchanged. -/
theorem add_fail_noop (n : ConditionNode) (p : List Nat) (c : ConditionNode)
    (h : (n.add_child_at_path p c).1 = false) :
    (n.add_child_at_path p c).2 = n := by
  induction p generalizing n with
  | nil =>
    cases n with
    | Leaf id l o r => simp [add_child_at_path]
    | Group id op ch => simp [add_child_at_path] at h
  | cons i rest ih =>
    cases n with
    | Leaf id l o r => simp [add_child_at_path]
    | Group id op ch =>
      cases hc : ch[i]? with
      | none => simp [add_child_at_path, hc]
      | some c₂ =>
        simp [add_child_at_path, hc] at h ⊢
        rw [ih c₂ h]
        exact list_set_of_getElem? ch i c₂ hc

/-- `remove_child_at` succeeds exactly when the parent path resolves to a
group and the index is within its children. -/
theorem remove_fst_iff (n : ConditionNode) (parent : List Nat) (idx : Nat) :
    (n.remove_child_at parent idx).1 = true ↔
      ∃ id op ch, n.get_at_path parent = some (.Group id op ch) ∧
        idx < ch.length := by
  induction parent generalizing n with
  | nil =>
    cases n with
    | Leaf id l o r => simp [remove_child_at, get_at_path]
    | Group id op ch =>
      by_cases hidx : idx < ch.length
      · constructor
        · intro _; exact ⟨id, op, ch, by simp [get_at_path], hidx⟩
        · intro _; simp [remove_child_at, hidx]
      · simp [remove_child_at, get_at_path, hidx]; omega
  | cons i rest ih =>
    cases n with
    | Leaf id l o r => simp [remove_child_at, get_at_path]
    | Group id op ch =>
      cases h : ch[i]? with
      | none => simp [remove_child_at, get_at_path, h]
      | some c₂ => simp [remove_child_at, get_at_path, h, ih c₂]

/-- On success, `remove_child_at` erases exactly the addressed child. -/
theorem remove_snd_get (n : ConditionNode) (parent : List Nat) (idx : Nat)
    (id : Nat) (op : LogicalOperator) (ch : List ConditionNode)
    (h : n.get_at_path parent = some (.Group id op ch))
    (hidx : idx < ch.length) :
    (n.remove_child_at parent idx).2.get_at_path parent =
      some (.Group id op (ch.eraseIdx idx)) := by
  induction parent generalizing n with
  | nil =>
    cases n with
    | Leaf id₂ l o r => simp [get_at_path] at h
    | Group id₂ op₂ ch₂ =>
      simp [get_at_path] at h
      obtain ⟨h1, h2, h3⟩ := h
      subst h1; subst h2; subst h3
      simp [remove_child_at, hidx, get_at_path]
  | cons i rest ih =>
    cases n with
    | Leaf id₂ l o r => simp [get_at_path] at h
    | Group id₂ op₂ ch₂ =>
      cases hc : ch₂[i]? with
      | none => simp [get_at_path, hc] at h
      | some c₂ =>
        simp [get_at_path, hc] at h
        have hi : i < ch₂.length := (List.getElem?_eq_some.mp hc).1
        simp [remove_child_at, hc, get_at_path,
          List.getElem?_set_self (by simpa using hi)]
        exact ih c₂ h

/-- A failed `remove_child_at` leaves the tree unchanged. -/
theorem remove_fail_noop (n : ConditionNode) (parent : List Nat) (idx : Nat)
    (h : (n.remove_child_at parent idx).1 = false) :
    (n.remove_child_at parent idx).2 = n := by
  induction parent generalizing n with
  | nil =>
    cases n with
    | Leaf id l o r => simp [remove_child_at]
    | Group id op ch =>
      by_cases hidx : idx < ch.length
      · simp [remove_child_at, hidx] at h
      · simp [remove_child_at, hidx]
  | cons i rest ih =>
    cases n with
    | Leaf id l o r => simp [remove_child_at]
    | Group id op ch =>
      cases hc : ch[i]? with
      | none => simp [remove_child_at, hc]
      | some c₂ =>
        simp [remove_child_at, hc] at h ⊢
        rw [ih c₂ h]
        exact list_set_of_getElem? ch i c₂ hc

/-- `delete_at_path` on a path ending in `i` is `remove_child_at` at the
parent prefix with index `i`. -/
theorem delete_concat (n : ConditionNode) (q : List Nat) (i : Nat) :
    n.delete_at_path (q ++ [i]) = n.remove_child_at q i := by
  cases q with
  | nil => simp [delete_at_path]
  | cons a as' =>
    rw [List.cons_append, delete_at_path]
    rw [show (a :: (as' ++ [i])) = (a :: as') ++ [i] from rfl]
    rw [List.dropLast_concat, List.getLastD_concat]

end ConditionNode

open ConditionNode in
/-- C3: `get_at_path` navigation semantics — the empty path returns the
current node itself (so in particular at the root); at a `Group` a non-empty
path recurses into `children[head]` with the tail when the head is in range
and returns `none` otherwise; at a `Leaf` a non-empty path returns `none`. -/
theorem C3_get_at_path_navigation (n : ConditionNode) (id lid : Nat)
    (op : LogicalOperator) (children : List ConditionNode)
    (l : Operand) (o : Operator) (r : Operand) :
    n.get_at_path [] = some n ∧
    (∀ i rest (h : i < children.length),
        (Group id op children).get_at_path (i :: rest) =
          children[i].get_at_path rest) ∧
    (∀ i rest, children.length ≤ i →
        (Group id op children).get_at_path (i :: rest) = none) ∧
    (∀ i rest, (Leaf lid l o r).get_at_path (i :: rest) = none) := by
  refine ⟨by simp [get_at_path], ?_, ?_, ?_⟩
  · intro i rest h
    simp [get_at_path, List.getElem?_eq_getElem h]
  · intro i rest h
    simp [get_at_path, List.getElem?_eq_none h]
  · intro i rest
    simp [get_at_path]

open ConditionNode in
/-- Witness for C3 at a concrete one-leaf group. -/
theorem C3_get_at_path_navigation_witness :
    (Group 0 .And [Leaf 1 (.Value "a") .Equals (.Value "b")]).get_at_path [0] =
        some (Leaf 1 (.Value "a") .Equals (.Value "b")) ∧
    (Group 0 .And [Leaf 1 (.Value "a") .Equals (.Value "b")]).get_at_path [1] =
        none ∧
    (Leaf 1 (.Value "a") .Equals (.Value "b")).get_at_path [0] = none := by
  obtain ⟨h1, h2, h3, h4⟩ :=
    C3_get_at_path_navigation
      (Group 0 .And [Leaf 1 (.Value "a") .Equals (.Value "b")]) 0 1 .And
      [Leaf 1 (.Value "a") .Equals (.Value "b")]
      (.Value "a") .Equals (.Value "b")
  refine ⟨?_, ?_, h4 0 []⟩
  · simpa using h2 0 [] (by decide)
  · exact h3 1 [] (by decide)

open ConditionNode in
/-- C4: `add_child_at_path` succeeds exactly when the path resolves to a
`Group`; on success the new node is appended as the last child of that group
with the prior children unchanged in order; it fails when the path resolves
to a `Leaf` or does not resolve at all. -/
theorem C4_add_child_at_path (n : ConditionNode) (p : List Nat)
    (c : ConditionNode) :
    ((n.add_child_at_path p c).1 = true ↔
      ∃ id op ch, n.get_at_path p = some (Group id op ch)) ∧
    (∀ id op ch, n.get_at_path p = some (Group id op ch) →
      (n.add_child_at_path p c).2.get_at_path p =
        some (Group id op (ch ++ [c]))) ∧
    (∀ id l o r, n.get_at_path p = some (Leaf id l o r) →
      (n.add_child_at_path p c).1 = false) ∧
    (n.get_at_path p = none → (n.add_child_at_path p c).1 = false) := by
  refine ⟨add_fst_iff n p c,
    fun id op ch h => add_snd_get n p c id op ch h, ?_, ?_⟩
  · intro id l o r h
    cases hb : (n.add_child_at_path p c).1 with
    | false => rfl
    | true =>
      obtain ⟨id₂, op₂, ch₂, hg⟩ := (add_fst_iff n p c).mp hb
      rw [h] at hg
      exact absurd hg (by simp)
  · intro h
    cases hb : (n.add_child_at_path p c).1 with
    | false => rfl
    | true =>
      obtain ⟨id₂, op₂, ch₂, hg⟩ := (add_fst_iff n p c).mp hb
      rw [h] at hg
      exact absurd hg (by simp)

open ConditionNode in
/-- Witness for C4: appending a leaf to a concrete group. -/
theorem C4_add_child_at_path_witness :
    ((Group 0 .And [Leaf 1 (.Value "a") .Equals (.Value "b")]).add_child_at_path
        [] (Leaf 2 (.Value "c") .Equals (.Value "d"))).1 = true ∧
    ((Group 0 .And [Leaf 1 (.Value "a") .Equals (.Value "b")]).add_child_at_path
        [] (Leaf 2 (.Value "c") .Equals (.Value "d"))).2.get_at_path [] =
      some (Group 0 .And
        [ Leaf 1 (.Value "a") .Equals (.Value "b"),
          Leaf 2 (.Value "c") .Equals (.Value "d") ]) := by
  obtain ⟨h1, h2, h3, h4⟩ :=
    C4_add_child_at_path
      (Group 0 .And [Leaf 1 (.Value "a") .Equals (.Value "b")]) []
      (Leaf 2 (.Value "c") .Equals (.Value "d"))
  constructor
  · exact h1.mpr ⟨0, .And, [Leaf 1 (.Value "a") .Equals (.Value "b")], rfl⟩
  · simpa using h2 0 .And [Leaf 1 (.Value "a") .Equals (.Value "b")] rfl

open ConditionNode in
/-- C5: `delete_at_path` on the empty path always fails and leaves the tree
unchanged (the root is never deletable); on a path `q ++ [i]` it succeeds
exactly when `q` resolves to a `Group` whose children contain index `i`, in
which case that child is erased: the group shrinks by one and every later
sibling shifts one position left while earlier siblings stay in place. -/
theorem C5_delete_at_path (n : ConditionNode) (q : List Nat) (i : Nat) :
    n.delete_at_path [] = (false, n) ∧
    ((n.delete_at_path (q ++ [i])).1 = true ↔
      ∃ id op ch, n.get_at_path q = some (Group id op ch) ∧ i < ch.length) ∧
    (∀ id op ch, n.get_at_path q = some (Group id op ch) → i < ch.length →
      (n.delete_at_path (q ++ [i])).2.get_at_path q =
          some (Group id op (ch.eraseIdx i)) ∧
      (ch.eraseIdx i).length = ch.length - 1 ∧
      (∀ j, j < i → (ch.eraseIdx i)[j]? = ch[j]?) ∧
      (∀ j, i ≤ j → j + 1 < ch.length → (ch.eraseIdx i)[j]? = ch[j + 1]?)) := by
  refine ⟨by simp [delete_at_path], ?_, ?_⟩
  · rw [delete_concat]
    exact remove_fst_iff n q i
  · intro id op ch h hi
    rw [delete_concat]
    exact ⟨remove_snd_get n q i id op ch h hi,
      List.length_eraseIdx_of_lt hi,
      fun j hj => List.getElem?_eraseIdx_of_lt ch i j hj,
      fun j hij _ => List.getElem?_eraseIdx_of_ge ch i j hij⟩

open ConditionNode in
/-- Witness for C5: deleting the first of two leaves in a concrete group. -/
theorem C5_delete_at_path_witness :
    ((Group 0 .And [ Leaf 1 (.Value "a") .Equals (.Value "b"),
                     Leaf 2 (.Value "c") .Equals (.Value "d") ]).delete_at_path
        [0]).1 = true ∧
    ((Group 0 .And [ Leaf 1 (.Value "a") .Equals (.Value "b"),
                     Leaf 2 (.Value "c") .Equals (.Value "d") ]).delete_at_path
        [0]).2.get_at_path [] =
      some (Group 0 .And [Leaf 2 (.Value "c") .Equals (.Value "d")]) := by
  obtain ⟨h1, h2, h3⟩ :=
    C5_delete_at_path
      (Group 0 .And [ Leaf 1 (.Value "a") .Equals (.Value "b"),
                      Leaf 2 (.Value "c") .Equals (.Value "d") ]) [] 0
  constructor
  · exact h2.mpr ⟨0, .And,
      [ Leaf 1 (.Value "a") .Equals (.Value "b"),
        Leaf 2 (.Value "c") .Equals (.Value "d") ], rfl, by decide⟩
  · have := (h3 0 .And
      [ Leaf 1 (.Value "a") .Equals (.Value "b"),
        Leaf 2 (.Value "c") .Equals (.Value "d") ] rfl (by decide)).1
    simpa using this

open ConditionNode in
/-- C9: whenever `add_child_at_path` or `delete_at_path` reports failure, the
tree after the call is exactly the tree before it. -/
theorem C9_failed_mutation_noop (n : ConditionNode) (p : List Nat)
    (c : ConditionNode) :
    ((n.add_child_at_path p c).1 = false → (n.add_child_at_path p c).2 = n) ∧
    ((n.delete_at_path p).1 = false → (n.delete_at_path p).2 = n) := by
  constructor
  · exact add_fail_noop n p c
  · intro h
    cases p with
    | nil => simp [delete_at_path]
    | cons a as' =>
      simp only [delete_at_path] at h ⊢
      exact remove_fail_noop n _ _ h

open ConditionNode in
/-- Witness for C9: both mutations fail on a bare leaf and leave it intact. -/
theorem C9_failed_mutation_noop_witness :
    ((Leaf 5 (.Value "x") .Equals (.Value "y")).add_child_at_path [0]
        (Leaf 6 (.Value "u") .Equals (.Value "v"))).1 = false ∧
    ((Leaf 5 (.Value "x") .Equals (.Value "y")).add_child_at_path [0]
        (Leaf 6 (.Value "u") .Equals (.Value "v"))).2 =
      Leaf 5 (.Value "x") .Equals (.Value "y") ∧
    ((Leaf 5 (.Value "x") .Equals (.Value "y")).delete_at_path [0]).1 = false ∧
    ((Leaf 5 (.Value "x") .Equals (.Value "y")).delete_at_path [0]).2 =
      Leaf 5 (.Value "x") .Equals (.Value "y") := by
  obtain ⟨h1, h2⟩ :=
    C9_failed_mutation_noop (Leaf 5 (.Value "x") .Equals (.Value "y")) [0]
      (Leaf 6 (.Value "u") .Equals (.Value "v"))
  exact ⟨rfl, h1 rfl, rfl, h2 rfl⟩

mutual

/-- Error-count bookkeeping for `validate_node`: it emits no name error, one
group error per childless group, one value error per empty literal side, and
nothing else. -/
theorem validate_node_stats (n : ConditionNode) :
    (validate_node n).count "Rule name cannot be empty" = 0 ∧
    (validate_node n).count "Group must have at least one condition" =
      countEmptyGroups n ∧
    (validate_node n).count "Condition value cannot be empty" =
      countEmptyValues n ∧
    (validate_node n).length = countEmptyGroups n + countEmptyValues n := by
  cases n with
  | Leaf id l o r =>
    rcases l with f | v <;> rcases r with f₂ | v₂ <;>
      simp [validate_node, countEmptyGroups, countEmptyValues,
        countEmptyValueSides, List.count_append] <;>
      split_ifs <;> simp_all [List.count_cons, List.count_nil]
  | Group id op ch =>
    obtain ⟨hl1, hl2, hl3, hl4⟩ := validate_node_list_stats ch
    by_cases hch : ch.isEmpty <;>
      simp [validate_node, countEmptyGroups, countEmptyValues, hch,
        List.count_append, List.count_cons, hl1, hl2, hl3, hl4]
    omega

/-- `validate_node_stats` lifted over the children traversal. -/
theorem validate_node_list_stats (l : List ConditionNode) :
    (validate_node_list l).count "Rule name cannot be empty" = 0 ∧
    (validate_node_list l).count "Group must have at least one condition" =
      countEmptyGroupsList l ∧
    (validate_node_list l).count "Condition value cannot be empty" =
      countEmptyValuesList l ∧
    (validate_node_list l).length =
      countEmptyGroupsList l + countEmptyValuesList l := by
  cases l with
  | nil =>
    simp [validate_node_list, countEmptyGroupsList, countEmptyValuesList]
  | cons c cs =>
    obtain ⟨h1, h2, h3, h4⟩ := validate_node_stats c
    obtain ⟨g1, g2, g3, g4⟩ := validate_node_list_stats cs
    simp [validate_node_list, countEmptyGroupsList, countEmptyValuesList,
      List.count_append, h1, h2, h3, h4, g1, g2, g3, g4]
    omega

end

/-- C6: the validator succeeds exactly when no error applies, and on failure
returns the complete accumulated error list: one name error when the rule
name is empty, one group error per childless group at any depth (root
included), one value error per empty literal operand side, and nothing else
(the total length is the sum of the three counts).  The concrete scenario —
empty name, one empty group, one leaf with one empty literal — yields exactly
the three errors. -/
theorem C6_validator_completeness (r : Rule) :
    (r.validate =
      if r.validate_errors.isEmpty then Except.ok ()
      else Except.error r.validate_errors) ∧
    (r.validate = Except.ok () ↔
      r.name.isEmpty = false ∧ countEmptyGroups r.root = 0 ∧
        countEmptyValues r.root = 0) ∧
    (r.validate_errors.count "Rule name cannot be empty" =
      if r.name.isEmpty then 1 else 0) ∧
    (r.validate_errors.count "Group must have at least one condition" =
      countEmptyGroups r.root) ∧
    (r.validate_errors.count "Condition value cannot be empty" =
      countEmptyValues r.root) ∧
    (r.validate_errors.length =
      (if r.name.isEmpty then 1 else 0) +
        (countEmptyGroups r.root + countEmptyValues r.root)) ∧
    exampleRule.validate = Except.error
      [ "Rule name cannot be empty", "Group must have at least one condition",
        "Condition value cannot be empty" ] := by
  obtain ⟨h1, h2, h3, h4⟩ := validate_node_stats r.root
  have herr : r.validate_errors =
      (if r.name.isEmpty then ["Rule name cannot be empty"] else []) ++
        validate_node r.root := rfl
  refine ⟨rfl, ?_, ?_, ?_, ?_, ?_, by rfl⟩
  · constructor
    · intro hok
      have hempty : r.validate_errors.isEmpty := by
        by_contra hne
        simp [Rule.validate, hne] at hok
      have hnil : r.validate_errors = [] := by
        simpa [List.isEmpty_iff] using hempty
      rw [herr] at hnil
      rcases List.append_eq_nil.mp hnil with ⟨hpre, hnode⟩
      have hname : r.name.isEmpty = false := by
        by_contra hn
        simp only [Bool.not_eq_false] at hn
        simp [hn] at hpre
      have hlen : (validate_node r.root).length = 0 := by simp [hnode]
      rw [h4] at hlen
      exact ⟨hname, by omega, by omega⟩
    · rintro ⟨hname, hg, hv⟩
      have hnode : (validate_node r.root).length = 0 := by
        rw [h4, hg, hv]
      have hnil : r.validate_errors = [] := by
        rw [herr, hname]
        simpa using List.length_eq_zero.mp hnode
      simp [Rule.validate, hnil]
  · rw [herr, List.count_append, h1]
    split_ifs <;> simp [List.count_cons]
  · rw [herr, List.count_append, h2]
    split_ifs <;> simp [List.count_cons]
  · rw [herr, List.count_append, h3]
    split_ifs <;> simp [List.count_cons]
  · rw [herr, List.length_append, h4]
    split_ifs <;> simp

/-- `toDecimal` never produces the empty character sequence. -/
theorem toDecimal_ne_nil (n : Nat) : toDecimal n ≠ [] := by
  rw [toDecimal]
  split <;> simp

/-- Every character of `toDecimal n` is a decimal digit character. -/
theorem mem_toDecimal (n : Nat) :
    ∀ c ∈ toDecimal n, ∃ d, d < 10 ∧ c = decChar d := by
  induction n using Nat.strong_induction_on with
  | _ n ih =>
    rw [toDecimal]
    split
    · next h =>
      intro c hc
      simp at hc
      exact ⟨n, h, hc⟩
    · next h =>
      intro c hc
      rw [List.mem_append] at hc
      rcases hc with hc | hc
      · exact ih (n / 10) (Nat.div_lt_self (by omega) (by omega)) c hc
      · exact ⟨n % 10, Nat.mod_lt _ (by omega), by simpa using hc⟩

/-- A digit character is not the dash separator. -/
theorem decChar_ne_dash {d : Nat} (h : d < 10) : decChar d ≠ '-' := by
  interval_cases d <;> decide

/-- A digit character is not the plus sign. -/
theorem decChar_ne_plus {d : Nat} (h : d < 10) : decChar d ≠ '+' := by
  interval_cases d <;> decide

/-- `digitVal` inverts `decChar` on digits. -/
theorem digitVal_decChar {d : Nat} (h : d < 10) :
    digitVal (decChar d) = some d := by
  interval_cases d <;> decide

/-- The dash separator never occurs inside a rendered index. -/
theorem dash_not_mem_toDecimal (n : Nat) : '-' ∉ toDecimal n := by
  intro hmem
  obtain ⟨d, hd, hc⟩ := mem_toDecimal n '-' hmem
  exact decChar_ne_dash hd hc.symm

/-- `parseDigitsAux` processes an append left to right. -/
theorem parseDigitsAux_append (l₁ l₂ : List Char) (acc : Nat) :
    parseDigitsAux (l₁ ++ l₂) acc =
      match parseDigitsAux l₁ acc with
      | some a => parseDigitsAux l₂ a
      | none => none := by
  induction l₁ generalizing acc with
  | nil => simp [parseDigitsAux]
  | cons c cs ih =>
    cases hd : digitVal c with
    | none => simp [parseDigitsAux, hd]
    | some d => simp [parseDigitsAux, hd, ih]

/-- Accumulator form of the decimal round trip. -/
theorem parseDigitsAux_toDecimal (n : Nat) : ∀ acc,
    parseDigitsAux (toDecimal n) acc =
      some (acc * 10 ^ (toDecimal n).length + n) := by
  induction n using Nat.strong_induction_on with
  | _ n ih =>
    intro acc
    rw [toDecimal]
    split
    · next h =>
      simp [parseDigitsAux, digitVal_decChar h, Nat.mul_comm]
    · next h =>
      rw [parseDigitsAux_append,
        ih (n / 10) (Nat.div_lt_self (by omega) (by omega)) acc]
      have hm : n % 10 < 10 := Nat.mod_lt _ (by omega)
      simp only [parseDigitsAux, digitVal_decChar hm, List.length_append,
        List.length_cons, List.length_nil]
      congr 1
      have hdm : 10 * (n / 10) + n % 10 = n := Nat.div_add_mod n 10
      have hrw : (10 : Nat) * (acc * 10 ^ (toDecimal (n / 10)).length + n / 10)
            + n % 10 =
          acc * 10 ^ ((toDecimal (n / 10)).length + 1) +
            (10 * (n / 10) + n % 10) := by ring
      rw [hrw, hdm]

/-- `parseUsize` inverts `toDecimal`. -/
theorem parseUsize_toDecimal (n : Nat) : parseUsize (toDecimal n) = some n := by
  cases hl : toDecimal n with
  | nil => exact absurd hl (toDecimal_ne_nil n)
  | cons c cs =>
    obtain ⟨d, hd, rfl⟩ := mem_toDecimal n c (by rw [hl]; simp)
    have hplus : decChar d ≠ '+' := decChar_ne_plus hd
    have haux := parseDigitsAux_toDecimal n 0
    rw [hl] at haux
    simp only [parseUsize, if_neg hplus, parseDigits, if_neg
      (by simp : ¬(decChar d :: cs = []))]
    simpa using haux

/-- `split('-')` of a dash-free sequence is that one segment. -/
theorem splitOnDash_no_dash (l : List Char) (h : '-' ∉ l) :
    splitOnDash l = [l] := by
  induction l with
  | nil => rfl
  | cons c cs ih =>
    have hc : c ≠ '-' := fun hc => h (by simp [hc])
    have hcs : '-' ∉ cs := fun hm => h (by simp [hm])
    simp [splitOnDash, hc, ih hcs]

/-- `split('-')` peels one dash-free segment before a dash. -/
theorem splitOnDash_append_dash (l r : List Char) (h : '-' ∉ l) :
    splitOnDash (l ++ '-' :: r) = l :: splitOnDash r := by
  induction l with
  | nil => simp [splitOnDash]
  | cons c cs ih =>
    have hc : c ≠ '-' := fun hc => h (by simp [hc])
    have hcs : '-' ∉ cs := fun hm => h (by simp [hm])
    simp [splitOnDash, hc, ih hcs]

/-- Splitting a dash-free prefix followed by dash-prefixed rendered indices
recovers the prefix and each rendered index as segments. -/
theorem splitOnDash_flatten (xs : List Nat) : ∀ pre : List Char, '-' ∉ pre →
    splitOnDash (pre ++ (xs.map (fun i => '-' :: toDecimal i)).flatten) =
      pre :: xs.map toDecimal := by
  induction xs with
  | nil =>
    intro pre h
    simpa using splitOnDash_no_dash pre h
  | cons x rest ih =>
    intro pre h
    have hshape : pre ++ ((x :: rest).map (fun i => '-' :: toDecimal i)).flatten
        = pre ++ '-' ::
            (toDecimal x ++ (rest.map (fun i => '-' :: toDecimal i)).flatten) := by
      simp
    rw [hshape, splitOnDash_append_dash pre _ h,
      ih (toDecimal x) (dash_not_mem_toDecimal x)]
    simp

/-- Parsing each rendered index back succeeds and drops nothing. -/
theorem filterMap_parseUsize_toDecimal (xs : List Nat) :
    (xs.map toDecimal).filterMap parseUsize = xs := by
  induction xs with
  | nil => rfl
  | cons x rest ih => simp [parseUsize_toDecimal, ih]

/-- C1: the path codec round-trips — `parse_path (path_to_string xs) = xs`
for every index sequence `xs`, with `path_to_string [] = "0"` and
`parse_path "0" = []`. -/
theorem C1_path_roundtrip (xs : List Nat) :
    parse_path (path_to_string xs) = xs ∧
    path_to_string [] = "0" ∧
    parse_path "0" = [] := by
  refine ⟨?_, by decide, by decide⟩
  show parse_path_chars (path_to_chars xs) = xs
  cases xs with
  | nil => decide
  | cons x rest =>
    have hchars : path_to_chars (x :: rest) =
        ['0'] ++ ((x :: rest).map (fun i => '-' :: toDecimal i)).flatten := by
      simp [path_to_chars]
    have hne : path_to_chars (x :: rest) ≠ ['0'] := by
      rw [hchars]
      simp
    rw [parse_path_chars, if_neg hne, hchars,
      splitOnDash_flatten (x :: rest) ['0'] (by decide)]
    simpa using filterMap_parseUsize_toDecimal (x :: rest)

/-- C10: `parse_path` discards the first dash-separated segment without
validating it — any dash-free input (garbage included) yields the empty root
path, and `parse_path "7-1"` equals `parse_path "0-1"` equals `[1]`. -/
theorem C10_parse_path_discards_first_segment (s : String) :
    ('-' ∉ s.data → parse_path s = []) ∧
    parse_path "7-1" = [1] ∧
    parse_path "0-1" = [1] ∧
    parse_path "abc" = [] ∧
    parse_path "" = [] ∧
    parse_path "5" = [] := by
  refine ⟨?_, by decide, by decide, by decide, by decide, by decide⟩
  intro h
  show parse_path_chars s.data = []
  by_cases h0 : s.data = ['0']
  · simp [parse_path_chars, h0]
  · simp [parse_path_chars, h0, splitOnDash_no_dash s.data h]

/-- Witness for C10 on the dash-free garbage token `"xyz"`. -/
theorem C10_parse_path_discards_first_segment_witness :
    ('-' ∉ ("xyz" : String).data) ∧ parse_path "xyz" = [] :=
  ⟨by decide, (C10_parse_path_discards_first_segment "xyz").1 (by decide)⟩

/-- C2 counterexample: the unknown field token `"bogus_field"` fails to
decode, yet both resolver call sites silently answer with the full
`Operator::all()` list (all 8 operators) instead of an error signal. -/
theorem C2_counterexample :
    Field.from_str "bogus_field" = none ∧
    get_operators_for_field "bogus_field" = Operator.all ∧
    get_operators_and_right_hint "field" "bogus_field" = Operator.all ∧
    Operator.all =
      [ .Equals, .NotEquals, .GreaterThan, .LessThan,
        .GreaterThanOrEqual, .LessThanOrEqual, .Contains, .In ] := by
  refine ⟨by decide, by decide, by decide, rfl⟩

/-- C2 amended: when the field token fails to decode, the resolvers do not
reject it — they fall back to returning the full `Operator::all()` list. -/
theorem C2_unknown_field_falls_back_to_all (s : String)
    (h : Field.from_str s = none) :
    get_operators_for_field s = Operator.all ∧
    get_operators_and_right_hint "field" s = Operator.all := by
  constructor
  · simp [get_operators_for_field, h]
  · by_cases he : s.isEmpty <;>
      simp [get_operators_and_right_hint, h, he]

/-- Witness for the amended C2 at the concrete token `"not_a_field"`. -/
theorem C2_unknown_field_falls_back_to_all_witness :
    Field.from_str "not_a_field" = none ∧
    get_operators_for_field "not_a_field" = Operator.all ∧
    get_operators_and_right_hint "field" "not_a_field" = Operator.all := by
  have h := C2_unknown_field_falls_back_to_all "not_a_field" (by decide)
  exact ⟨by decide, h.1, h.2⟩

/-- C7: each of the four numeric fields resolves to exactly the six
comparison operators and each of the four string fields to exactly
{equals, not_equals, contains, in}; a literal value receives the same two
sets, classified numeric exactly when it parses as a floating-point number —
in particular `"42"` is numeric and `"abc"` is not. -/
theorem C7_operator_field_consistency :
    get_operators_for_field "transaction_amount" =
      [ Operator.Equals, Operator.NotEquals, Operator.GreaterThan,
        Operator.LessThan, Operator.GreaterThanOrEqual,
        Operator.LessThanOrEqual ] ∧
    get_operators_for_field "user_age" =
      [ Operator.Equals, Operator.NotEquals, Operator.GreaterThan,
        Operator.LessThan, Operator.GreaterThanOrEqual,
        Operator.LessThanOrEqual ] ∧
    get_operators_for_field "transaction_count_24h" =
      [ Operator.Equals, Operator.NotEquals, Operator.GreaterThan,
        Operator.LessThan, Operator.GreaterThanOrEqual,
        Operator.LessThanOrEqual ] ∧
    get_operators_for_field "account_age" =
      [ Operator.Equals, Operator.NotEquals, Operator.GreaterThan,
        Operator.LessThan, Operator.GreaterThanOrEqual,
        Operator.LessThanOrEqual ] ∧
    get_operators_for_field "transaction_currency" =
      [Operator.Equals, Operator.NotEquals, Operator.Contains, Operator.In] ∧
    get_operators_for_field "user_country" =
      [Operator.Equals, Operator.NotEquals, Operator.Contains, Operator.In] ∧
    get_operators_for_field "ip_address" =
      [Operator.Equals, Operator.NotEquals, Operator.Contains, Operator.In] ∧
    get_operators_for_field "device_fingerprint" =
      [Operator.Equals, Operator.NotEquals, Operator.Contains, Operator.In] ∧
    (∀ s : String, get_operators_for_value s =
      if is_f64_chars s.data then
        [ Operator.Equals, Operator.NotEquals, Operator.GreaterThan,
          Operator.LessThan, Operator.GreaterThanOrEqual,
          Operator.LessThanOrEqual ]
      else
        [Operator.Equals, Operator.NotEquals, Operator.Contains,
          Operator.In]) ∧
    is_f64_chars ("42" : String).data = true ∧
    is_f64_chars ("abc" : String).data = false ∧
    get_operators_for_value "42" =
      [ Operator.Equals, Operator.NotEquals, Operator.GreaterThan,
        Operator.LessThan, Operator.GreaterThanOrEqual,
        Operator.LessThanOrEqual ] ∧
    get_operators_for_value "abc" =
      [Operator.Equals, Operator.NotEquals, Operator.Contains, Operator.In] := by
  refine ⟨by decide, by decide, by decide, by decide, by decide, by decide,
    by decide, by decide, ?_, by decide, by decide, by decide, by decide⟩
  intro s
  by_cases he : s.isEmpty
  · have hs : s = "" := (String.isEmpty_iff s).mp he
    subst hs
    decide
  · simp [get_operators_for_value, he]

/-- C8 counterexample: a session created at time 0 is still returned by
`get_session` at lookup time exactly `0 + SESSION_DURATION`, where the claim
requires it to be absent. -/
theorem C8_counterexample :
    (get_session [("sid", Session.new "alice" "uid" 0)] "sid"
        (0 + SESSION_DURATION)).1 = some (Session.new "alice" "uid" 0) ∧
    (get_session [("sid", Session.new "alice" "uid" 0)] "sid"
        (0 + SESSION_DURATION)).1 ≠ none := by
  constructor <;> decide

/-- C8 amended: a session created at time `T` is returned by `get_session`
at every lookup time `now ≤ T + SESSION_DURATION` (the boundary instant
included, since expiry is the strict comparison `now > expires_at`) and is
absent for every strictly later lookup. -/
theorem C8_session_expiry_boundary (sid u uid : String) (T now : Nat) :
    (get_session [(sid, Session.new u uid T)] sid now).1 =
      if now ≤ T + SESSION_DURATION then some (Session.new u uid T)
      else none := by
  have hlk : List.lookup sid [(sid, Session.new u uid T)] =
      some (Session.new u uid T) := by simp [List.lookup]
  by_cases h : now ≤ T + SESSION_DURATION
  · have hexp : (Session.new u uid T).is_expired now = false := by
      simp only [Session.is_expired, Session.new, decide_eq_false_iff_not]
      omega
    simp [get_session, hlk, hexp, h]
  · have hexp : (Session.new u uid T).is_expired now = true := by
      simp only [Session.is_expired, Session.new, decide_eq_true_eq]
      omega
    simp [get_session, hlk, hexp, h]

end RuleBuilder
